import Mathlib

/-!
Verification of the document layout engine of the `english_related_generator`
repository: the script run splitter, mixed-run measurer and header fit-shrinker
of `src/generator.py`, and the role resolution, column splitting and pagination
of `src/student_grades_generator.py`.

Python strings are modelled as `List Char`, page geometry and text widths as
rationals, and the external font-metrics collaborator (`pdfmetrics.stringWidth`)
as an abstract function parameter.
-/

namespace EnglishGen

/-! ## Script run splitter (`split_runs`, src/generator.py lines 62-66)

`ASCII = set(range(32, 127))`; `split_runs` uses the regex
`[ -~]+|[^\x20-\x7E]+`, whose two branches are complementary character
classes, so `re.findall` returns exactly the maximal runs of same-class
adjacent characters, in order. -/

/-- A character is "narrow" when its codepoint lies in the printable ASCII
range 0x20..0x7E (the regex class `[ -~]`, equally `range(32, 127)`). -/
def isNarrow (c : Char) : Bool := 0x20 ≤ c.toNat && c.toNat ≤ 0x7E

/-- Accumulator pass for `split_runs`: `cls` is the class of the run being
built, `cur` its characters in reverse order. -/
def splitRunsAux (cls : Bool) (cur : List Char) : List Char → List (List Char)
  | [] => [cur.reverse]
  | c :: rest =>
      if isNarrow c = cls then splitRunsAux cls (c :: cur) rest
      else cur.reverse :: splitRunsAux (isNarrow c) [c] rest

/-- `split_runs`: partition a string into maximal runs of narrow / wide
characters, preserving order. Empty input yields the empty sequence. -/
def split_runs : List Char → List (List Char)
  | [] => []
  | c :: rest => splitRunsAux (isNarrow c) [c] rest

/-! ## Identity role resolution (`generate_pdf`, src/student_grades_generator.py
lines 210-217)

Each role filters the column names whose stripped text equals one of the
role's aliases, takes the first match, and otherwise falls back to a fixed
positional index: code → `df.columns[0]`, name → `df.columns[1]`,
class → `df.columns[2]`. A fallback index beyond the column count raises in
Python; this is modelled by `Option` (`none` = raise). -/

def codeAliases : List String := ["学号", "学号/Code", "code", "Code"]

def nameAliases : List String := ["姓名", "姓名/Name", "name", "Name"]

def classAliases : List String := ["班级", "班级/Class", "class", "Class"]

/-- Whitespace characters removed by Python `str.strip()` (the ASCII ones;
exotic Unicode whitespace is out of scope for the column names involved). -/
def isPySpace (c : Char) : Bool :=
  c = ' ' || c = '\t' || c = '\n' || c = '\r' || c = '\x0b' || c = '\x0c'

/-- Python `str.strip()`: drop whitespace from both ends. -/
def pyStrip (s : String) : String :=
  ⟨((s.toList.dropWhile isPySpace).reverse.dropWhile isPySpace).reverse⟩

/-- `candidates = [c for c in df.columns if str(c).strip() in aliases]`;
`candidates[0] if candidates else df.columns[fallbackIdx]`. -/
def resolveRole (columns aliases : List String) (fallbackIdx : Nat) : Option String :=
  match columns.filter (fun c => aliases.contains (pyStrip c)) with
  | [] => columns.get? fallbackIdx
  | c :: _ => some c

/-- Line 210-211: code column, positional fallback index 0. -/
def code_col (columns : List String) : Option String := resolveRole columns codeAliases 0

/-- Line 213-214: name column, positional fallback index 1. -/
def name_col (columns : List String) : Option String := resolveRole columns nameAliases 1

/-- Line 216-217: class column, positional fallback index 2. -/
def class_col (columns : List String) : Option String := resolveRole columns classAliases 2

/-! ## Column splitting and card body (`split_columns_evenly` lines 57-65,
`draw_card` lines 129-150)

`left = pairs[:n]`, `middle = pairs[n:2n]`, `right = pairs[2n:]` — the right
column receives *all* remaining pairs, unbounded. `draw_card` then draws every
pair of each of the three lists as a `"k: v"` line. -/

/-- `split_columns_evenly(keys, values, n)`: zip, then slice at `n` and `2n`. -/
def split_columns_evenly (keys values : List String) (maxItemsEachCol : Nat) :
    List (String × String) × List (String × String) × List (String × String) :=
  let pairs := keys.zip values
  (pairs.take maxItemsEachCol,
   (pairs.drop maxItemsEachCol).take maxItemsEachCol,
   pairs.drop (2 * maxItemsEachCol))

/-- One column of the card body: `for k, v in kvs: drawString(f"{k}: {v}")`,
moving down one line each time. Emits (column index, line index, text). -/
def drawColumn (col : Nat) : Nat → List (String × String) → List (Nat × Nat × String)
  | _, [] => []
  | i, kv :: rest => (col, i, kv.1 ++ ": " ++ kv.2) :: drawColumn col (i + 1) rest

/-- The body `drawString` calls `draw_card` emits (lines 129-150): every pair
of each of the three column lists is drawn. -/
def draw_card_body (kvLeft kvMiddle kvRight : List (String × String)) :
    List (Nat × Nat × String) :=
  drawColumn 0 0 kvLeft ++ drawColumn 1 0 kvMiddle ++ drawColumn 2 0 kvRight

/-! ## Effective row clamp (`generate_pdf` lines 232-234)

`max_rows_fit = max(1, int((usable_h + gutter) // (card_h + gutter)))`;
`actual_rows = min(rows, max_rows_fit)`. Python float floor-division is
mathematical floor, so it is modelled with `Int.floor` over ℚ. -/

/-- Line 232. -/
def max_rows_fit (usable_h gutter card_h : ℚ) : ℤ :=
  max 1 ⌊(usable_h + gutter) / (card_h + gutter)⌋

/-- Line 233. -/
def actual_rows (rows : ℤ) (usable_h gutter card_h : ℚ) : ℤ :=
  min rows (max_rows_fit usable_h gutter card_h)

/-- Modelled from the spec's formula: `effective_rows = min(requested_rows,
floor((usable_height + gutter) / (cell_height + gutter)))`, floored at 1
(the floor of 1 applying to the vertical fit count, consistently with the
spec's "never silently expanded"). -/
def effective_rows_spec (rows : ℤ) (usable_h gutter cell_h : ℚ) : ℤ :=
  min rows (max 1 ⌊(usable_h + gutter) / (cell_h + gutter)⌋)

/-! ## Pagination packer (`generate_pdf` lines 246-306)

`page_idx = 1; draw_header(1)` before the loop; then for each record index
`idx` in `range(total_cards)`: draw the card, `card_count_on_page += 1`, and
`if not preview_only and (card_count_on_page % cards_per_page) == 0 and
idx != total_cards - 1: c.showPage(); page_idx += 1; draw_header(page_idx)`.
`card_count_on_page` is never reset, so after `idx` it always equals
`idx + 1`. The final `c.save()` emits the open page, so the number of pages
emitted is the final `page_idx`. -/

/-- Pagination loop state: the running card count, the current 1-based page
index, the page indices passed to `draw_header` in order, and the card counts
at which `showPage` fired (page-boundary transitions). -/
structure PackState where
  count : Nat
  pageIdx : Nat
  headerCalls : List Nat
  breaks : List Nat
deriving DecidableEq

/-- State before the record loop: header of page 1 already drawn (line 247). -/
def packInit : PackState := ⟨0, 1, [1], []⟩

/-- One iteration of the record loop for record index `idx` out of `total`
(lines 261-304, pagination part). -/
def packStep (preview : Bool) (P total idx : Nat) (st : PackState) : PackState :=
  let count := st.count + 1
  if preview = false ∧ count % P = 0 ∧ idx ≠ total - 1 then
    { count := count, pageIdx := st.pageIdx + 1,
      headerCalls := st.headerCalls ++ [st.pageIdx + 1],
      breaks := st.breaks ++ [count] }
  else
    { st with count := count }

/-- The whole record loop `for idx in range(total_cards)`. -/
def packRun (preview : Bool) (P total : Nat) : PackState :=
  (List.range total).foldl (fun st idx => packStep preview P total idx st) packInit

/-- `total_cards` (lines 255-257): `len(df)`, truncated to
`max_preview_cards` only when `preview_only` holds and `max_preview_cards`
is truthy (not `None` and nonzero). -/
def total_cards (R : Nat) (preview : Bool) (maxPreviewCards : Option Nat) : Nat :=
  match preview, maxPreviewCards with
  | true, some m => if m ≠ 0 then min R m else R
  | _, _ => R

/-! ## Mixed-run measurement and header fit (src/generator.py lines 56-131)

The font metrics collaborator `pdfmetrics.stringWidth(tok, font, size)` is an
external data source, modelled as an abstract parameter
`pdfWidth : String → List Char → ℚ → ℚ`. The ZH font name is decided at
module load time ("SimSun" or the "Helvetica" fallback), so it is a parameter
too. -/

def EN_FONT : String := "Times-Roman"

def EN_FONT_BOLD : String := "Times-Bold"

/-- reportlab's `mm` unit in points: 72 / 25.4. -/
def mm : ℚ := 360 / 127

/-- `string_width_mixed` (lines 81-87): total width is the sum of per-run
widths, measuring all-ASCII runs with `enFont` and the others with `zhFont`. -/
def string_width_mixed (pdfWidth : String → List Char → ℚ → ℚ)
    (enFont zhFont : String) (size : ℚ) (s : List Char) : ℚ :=
  ((split_runs s).map (fun tok =>
    pdfWidth (if tok ≠ [] ∧ tok.all isNarrow then enFont else zhFont) tok size)).sum

/-- `assemble(nu, cu, tight)` (lines 111-114):
`f"{date_str} {scope} Name{nu} Class{cu}"`, without the space before
`Class` when `tight`. -/
def assemble (dateStr scope nu cu : List Char) (tight : Bool) : List Char :=
  if tight then
    dateStr ++ [' '] ++ scope ++ [' '] ++ "Name".toList ++ nu ++ "Class".toList ++ cu
  else
    dateStr ++ [' '] ++ scope ++ [' '] ++ "Name".toList ++ nu ++ [' '] ++ "Class".toList ++ cu

/-- The shrink loop of `build_header_one_line` (lines 116-131): while the
assembled header measures over the budget, shorten the Name underline by one
while its length exceeds the minimum 2 (`min_name = "__"`), else the Class
underline while above its minimum 1 (`min_class = "_"`), else drop the space
before `Class` and stop, returning that string unconditionally. -/
def fitLoop (W : List Char → ℚ) (budget : ℚ) (dateStr scope nu cu : List Char) :
    List Char :=
  if W (assemble dateStr scope nu cu false) > budget then
    if 2 < nu.length then fitLoop W budget dateStr scope nu.dropLast cu
    else if 1 < cu.length then fitLoop W budget dateStr scope nu cu.dropLast
    else assemble dateStr scope nu cu true
  else assemble dateStr scope nu cu false
termination_by nu.length + cu.length
decreasing_by
  all_goals simp [List.length_dropLast]
  all_goals omega

/-- `build_header_one_line` (lines 91-131): initial underlines `"________"`
and `"___"`, safety margin 1 mm, widths measured with the emphasized EN font
pair passed by the caller. -/
def build_header_one_line (pdfWidth : String → List Char → ℚ → ℚ)
    (dateStr scope : List Char) (maxWidth fontSize : ℚ)
    (enFontForWidth zhFontForWidth : String) : List Char :=
  fitLoop (string_width_mixed pdfWidth enFontForWidth zhFontForWidth fontSize)
    (maxWidth - 1 * mm) dateStr scope "________".toList "___".toList

/-- The sequence of headers the shrink loop inspects, in inspection order. -/
def candList (dateStr scope nu cu : List Char) : List (List Char) :=
  assemble dateStr scope nu cu false ::
    (if 2 < nu.length then candList dateStr scope nu.dropLast cu
     else if 1 < cu.length then candList dateStr scope nu cu.dropLast
     else [])
termination_by nu.length + cu.length
decreasing_by
  all_goals simp [List.length_dropLast]
  all_goals omega

/-- The filler pair at the loop's floor (both fillers fully shrunk). -/
def floorFillers (nu cu : List Char) : List Char × List Char :=
  if 2 < nu.length then floorFillers nu.dropLast cu
  else if 1 < cu.length then floorFillers nu cu.dropLast
  else (nu, cu)
termination_by nu.length + cu.length
decreasing_by
  all_goals simp [List.length_dropLast]
  all_goals omega

/-- Modelled from the spec's shrink order: return the first candidate that
measures within the budget, or the final fallback if none does. -/
def pickFirstFit (W : List Char → ℚ) (budget : ℚ) :
    List (List Char) → List Char → List Char
  | [], dflt => dflt
  | h :: t, dflt => if W h ≤ budget then h else pickFirstFit W budget t dflt

/-- A concrete metrics environment where every character has advance width 1
(total width = character count), used to exercise the shrink loop. -/
def charCountWidth : String → List Char → ℚ → ℚ := fun _ tok _ => tok.length

/-- Fuel-indexed version of the shrink loop, counting loop entries; `none`
when the fuel runs out before the loop exits. -/
def fitLoopFuel (W : List Char → ℚ) (budget : ℚ) (dateStr scope : List Char) :
    Nat → List Char → List Char → Option (List Char)
  | 0, _, _ => none
  | fuel + 1, nu, cu =>
    if W (assemble dateStr scope nu cu false) > budget then
      if 2 < nu.length then fitLoopFuel W budget dateStr scope fuel nu.dropLast cu
      else if 1 < cu.length then fitLoopFuel W budget dateStr scope fuel nu cu.dropLast
      else some (assemble dateStr scope nu cu true)
    else some (assemble dateStr scope nu cu false)

/-! ## 默写纸 worksheet generator (`make_chongmo_pdf`, src/generator.py
lines 135-215)

One flowable list (the bold one-line header followed by the numbered items)
is built once and drawn into every cell of the rows × cols grid; a single
`showPage()`/`save()` at the end emits exactly one page. Paragraph markup
(`<font>` tags, `<b>`) is modelled structurally as (font, text) run pairs. -/

/-- reportlab A4 width in points (210 mm). -/
def PAGE_W : ℚ := 210 * mm

/-- reportlab A4 height in points (297 mm). -/
def PAGE_H : ℚ := 297 * mm

/-- A flowable of a cell: the bold header paragraph or one numbered body
line, each carrying its font-tagged runs. -/
inductive Flow where
  | header (runs : List (String × List Char)) : Flow
  | body (runs : List (String × List Char)) : Flow
deriving DecidableEq

/-- `wrap_mixed` (lines 68-79): tag all-ASCII runs with the EN font, the
others with the ZH font. -/
def wrap_mixed (enFont zhFont : String) (s : List Char) : List (String × List Char) :=
  (split_runs s).map (fun tok =>
    (if tok ≠ [] ∧ tok.all isNarrow then enFont else zhFont, tok))

/-- The numbered body lines `f"{i}. {t}"` for `enumerate(items, 1)`
(lines 201-203). -/
def numberItems (zhFont : String) : Nat → List (List Char) → List Flow
  | _, [] => []
  | i, t :: rest =>
      Flow.body (wrap_mixed EN_FONT zhFont ((toString i).toList ++ ". ".toList ++ t))
        :: numberItems zhFont (i + 1) rest

/-- Output of `make_chongmo_pdf`: the number of pages emitted and the cell
draw calls `(x, y, flows)` in drawing order. -/
structure ChongmoOut where
  pages : Nat
  cells : List (ℚ × ℚ × List Flow)

/-- `make_chongmo_pdf` (lines 135-215): raise `ValueError` on empty items
(line 155-156); then `cell_w = (PAGE_W - 2*margin) / cols` and
`cell_h = (PAGE_H - 2*margin) / rows` (lines 163-164) raise
`ZeroDivisionError` when `cols` respectively `rows` is zero — ℚ division is
total, so these two error paths are modelled by explicit guards in the same
order. Otherwise build the header and the flowables once, draw the same
flowables into every cell of the rows × cols grid, and emit a single page. -/
def make_chongmo_pdf (pdfWidth : String → List Char → ℚ → ℚ) (zhFont : String)
    (dateStr scope : List Char) (items : List (List Char))
    (cols rows : Nat) (fontSize padding : ℚ) : Except String ChongmoOut :=
  if items.length = 0 then Except.error "Need at least 1 item."
  else if cols = 0 then Except.error "ZeroDivisionError"
  else if rows = 0 then Except.error "ZeroDivisionError"
  else
    let margin : ℚ := 8 * mm
    let pad : ℚ := padding * mm
    let cell_w : ℚ := (PAGE_W - 2 * margin) / (cols : ℚ)
    let cell_h : ℚ := (PAGE_H - 2 * margin) / (rows : ℚ)
    let inner_w : ℚ := cell_w - 2 * pad
    let headerPlain := build_header_one_line pdfWidth dateStr scope inner_w fontSize
      EN_FONT_BOLD zhFont
    let flows := Flow.header (wrap_mixed EN_FONT_BOLD zhFont headerPlain)
      :: numberItems zhFont 1 items
    Except.ok
      { pages := 1,
        cells := ((List.range rows).map (fun (r : Nat) =>
          (List.range cols).map (fun (col : Nat) =>
            (margin + (col : ℚ) * cell_w,
             PAGE_H - margin - ((r : ℚ) + 1) * cell_h, flows)))).flatten }


/-! ## Lemmas and theorems -/
lemma splitRunsAux_spec (l : List Char) :
    ∀ (cls : Bool) (cur : List Char), cur ≠ [] → (∀ c ∈ cur, isNarrow c = cls) →
      ((splitRunsAux cls cur l).flatten = cur.reverse ++ l)
      ∧ (∀ r ∈ splitRunsAux cls cur l, r ≠ [])
      ∧ (∀ r ∈ splitRunsAux cls cur l, ∀ a ∈ r, ∀ b ∈ r, isNarrow a = isNarrow b)
      ∧ List.Chain' (fun r s => ∀ a ∈ r, ∀ b ∈ s, isNarrow a ≠ isNarrow b)
          (splitRunsAux cls cur l)
      ∧ (∃ r rest, splitRunsAux cls cur l = r :: rest ∧ ∀ a ∈ r, isNarrow a = cls) := by
  induction l with
  | nil =>
      intro cls cur hne hcls
      refine ⟨by simp [splitRunsAux], ?_, ?_, ?_, ?_⟩
      · intro r hr
        simp only [splitRunsAux, List.mem_singleton] at hr
        subst hr
        simpa using hne
      · intro r hr a ha b hb
        simp only [splitRunsAux, List.mem_singleton] at hr
        subst hr
        rw [List.mem_reverse] at ha hb
        rw [hcls a ha, hcls b hb]
      · simp [splitRunsAux]
      · exact ⟨cur.reverse, [], rfl, fun a ha => hcls a (List.mem_reverse.mp ha)⟩
  | cons c rest ih =>
      intro cls cur hne hcls
      by_cases hc : isNarrow c = cls
      · have hcls' : ∀ d ∈ c :: cur, isNarrow d = cls := by
          intro d hd
          rcases List.mem_cons.mp hd with h | h
          · subst h; exact hc
          · exact hcls d h
        obtain ⟨hj, hnonempty, hhomog, hchain, hhead⟩ :=
          ih cls (c :: cur) (by simp) hcls'
        refine ⟨?_, ?_, ?_, ?_, ?_⟩ <;>
          simp only [splitRunsAux, if_pos hc]
        · rw [hj]; simp
        · exact hnonempty
        · exact hhomog
        · exact hchain
        · exact hhead
      · obtain ⟨hj, hnonempty, hhomog, hchain, hhead⟩ :=
          ih (isNarrow c) [c] (by simp) (by simp)
        refine ⟨?_, ?_, ?_, ?_, ?_⟩ <;>
          simp only [splitRunsAux, if_neg hc]
        · rw [List.flatten_cons, hj]; simp
        · intro r hr
          rcases List.mem_cons.mp hr with h | h
          · subst h; simpa using hne
          · exact hnonempty r h
        · intro r hr a ha b hb
          rcases List.mem_cons.mp hr with h | h
          · subst h
            rw [List.mem_reverse] at ha hb
            rw [hcls a ha, hcls b hb]
          · exact hhomog r h a ha b hb
        · obtain ⟨r0, rest0, heq, hr0⟩ := hhead
          rw [heq]
          rw [heq] at hchain
          refine List.Chain'.cons ?_ hchain
          intro a ha b hb
          rw [List.mem_reverse] at ha
          rw [hcls a ha, hr0 b hb]
          exact fun h => hc h.symm
        · exact ⟨cur.reverse, _, rfl, fun a ha => hcls a (List.mem_reverse.mp ha)⟩

lemma split_runs_flatten (s : List Char) : (split_runs s).flatten = s := by
  cases s with
  | nil => rfl
  | cons c rest =>
      simpa [split_runs] using
        (splitRunsAux_spec rest (isNarrow c) [c] (by simp) (by simp)).1

/-- C8: for every input string, `split_runs` returns runs that concatenate in
order to exactly the original string, contains no empty run, each run is
homogeneous in class (narrow = codepoint in 0x20..0x7E), adjacent runs never
share a class, and the empty string yields the empty sequence. -/
theorem split_runs_spec (s : List Char) :
    ((split_runs s).flatten = s)
    ∧ (∀ r ∈ split_runs s, r ≠ [])
    ∧ (∀ r ∈ split_runs s, ∀ a ∈ r, ∀ b ∈ r, isNarrow a = isNarrow b)
    ∧ List.Chain' (fun r t => ∀ a ∈ r, ∀ b ∈ t, isNarrow a ≠ isNarrow b)
        (split_runs s)
    ∧ split_runs ([] : List Char) = [] := by
  have h : (∀ r ∈ split_runs s, r ≠ [])
      ∧ (∀ r ∈ split_runs s, ∀ a ∈ r, ∀ b ∈ r, isNarrow a = isNarrow b)
      ∧ List.Chain' (fun r t => ∀ a ∈ r, ∀ b ∈ t, isNarrow a ≠ isNarrow b)
          (split_runs s) := by
    cases s with
    | nil => exact ⟨by simp [split_runs], by simp [split_runs], by simp [split_runs]⟩
    | cons c rest =>
        obtain ⟨_, hne, hhomog, hchain, _⟩ :=
          splitRunsAux_spec rest (isNarrow c) [c] (by simp) (by simp)
        exact ⟨hne, hhomog, hchain⟩
  exact ⟨split_runs_flatten s, h.1, h.2.1, h.2.2, rfl⟩

/-- C1 counterexample: for the alias-free column list `["s", "t", "u"]` the
code resolves identity-name to the column at index 1 (`"t"`) and
identity-code to the column at index 0 (`"s"`), contradicting the claimed
fallback order (name → index 0, code → index 1). -/
theorem name_code_fallback_swapped :
    name_col ["s", "t", "u"] = some "t" ∧ code_col ["s", "t", "u"] = some "s"
    ∧ name_col ["s", "t", "u"] ≠ ["s", "t", "u"].get? 0
    ∧ code_col ["s", "t", "u"] ≠ ["s", "t", "u"].get? 1 := by
  refine ⟨rfl, rfl, ?_, ?_⟩ <;> decide

/-- C1 amended: when no column name matches any identity alias set,
identity-code falls back to the column at index 0, identity-name to the
column at index 1, and identity-class to the column at index 2. -/
theorem positional_fallback (columns : List String)
    (hcode : ∀ c ∈ columns, ¬ (codeAliases.contains (pyStrip c) = true))
    (hname : ∀ c ∈ columns, ¬ (nameAliases.contains (pyStrip c) = true))
    (hclass : ∀ c ∈ columns, ¬ (classAliases.contains (pyStrip c) = true)) :
    code_col columns = columns.get? 0
    ∧ name_col columns = columns.get? 1
    ∧ class_col columns = columns.get? 2 := by
  have hc : columns.filter (fun c => codeAliases.contains (pyStrip c)) = [] :=
    List.filter_eq_nil_iff.mpr hcode
  have hn : columns.filter (fun c => nameAliases.contains (pyStrip c)) = [] :=
    List.filter_eq_nil_iff.mpr hname
  have hcl : columns.filter (fun c => classAliases.contains (pyStrip c)) = [] :=
    List.filter_eq_nil_iff.mpr hclass
  refine ⟨?_, ?_, ?_⟩
  · unfold code_col resolveRole
    rw [hc]
  · unfold name_col resolveRole
    rw [hn]
  · unfold class_col resolveRole
    rw [hcl]

/-- Witness for `positional_fallback` at columns `["A", "B", "C"]`. -/
theorem positional_fallback_witness :
    code_col ["A", "B", "C"] = some "A" ∧ name_col ["A", "B", "C"] = some "B"
    ∧ class_col ["A", "B", "C"] = some "C" := by
  have h := positional_fallback ["A", "B", "C"] (by decide) (by decide) (by decide)
  simpa using h

/-- C3 counterexample: with capacity n = 1 and four pairs, the pair at index 3
(beyond the claimed total capacity 3·n = 3) lands in the right column and *is*
drawn — nothing is dropped. -/
theorem overflow_pair_is_drawn :
    (split_columns_evenly ["a", "b", "c", "d"] ["1", "2", "3", "4"] 1).2.2
      = [("c", "3"), ("d", "4")]
    ∧ (2, 1, "d: 4") ∈
        draw_card_body
          (split_columns_evenly ["a", "b", "c", "d"] ["1", "2", "3", "4"] 1).1
          (split_columns_evenly ["a", "b", "c", "d"] ["1", "2", "3", "4"] 1).2.1
          (split_columns_evenly ["a", "b", "c", "d"] ["1", "2", "3", "4"] 1).2.2 := by
  constructor <;> decide

/-- C3 amended: pairs go to column 1 until its capacity n is reached, then to
column 2 for the next n, and *all* remaining pairs go to column 3 (which is
unbounded); original order is preserved and every pair is drawn — none is
dropped. -/
lemma drawColumn_texts (col : Nat) (l : List (String × String)) : ∀ (i : Nat),
    (drawColumn col i l).map (fun t => t.2.2) = l.map (fun kv => kv.1 ++ ": " ++ kv.2) := by
  induction l with
  | nil => intro i; rfl
  | cons kv rest ih => intro i; simp [drawColumn, ih]

theorem split_columns_covers_all (keys values : List String) (n : Nat)
    (hn : 1 ≤ n) :
    (split_columns_evenly keys values n).1 = (keys.zip values).take n
    ∧ (split_columns_evenly keys values n).2.1 = ((keys.zip values).drop n).take n
    ∧ (split_columns_evenly keys values n).2.2 = (keys.zip values).drop (2 * n)
    ∧ (split_columns_evenly keys values n).1 ++ (split_columns_evenly keys values n).2.1
        ++ (split_columns_evenly keys values n).2.2 = keys.zip values
    ∧ (draw_card_body (split_columns_evenly keys values n).1
        (split_columns_evenly keys values n).2.1
        (split_columns_evenly keys values n).2.2).map (fun t => t.2.2)
        = (keys.zip values).map (fun kv => kv.1 ++ ": " ++ kv.2) := by
  refine ⟨rfl, rfl, rfl, ?_, ?_⟩
  · simp only [split_columns_evenly]
    rw [List.append_assoc, two_mul, List.drop_take_append_drop, List.take_append_drop]
  · simp only [split_columns_evenly, draw_card_body, List.map_append, drawColumn_texts]
    rw [← List.map_append, ← List.map_append, List.append_assoc, two_mul,
      List.drop_take_append_drop, List.take_append_drop]

/-- Witness for `split_columns_covers_all` at a concrete input with n = 2. -/
theorem split_columns_covers_all_witness :
    (1 ≤ 2)
    ∧ (split_columns_evenly ["a", "b", "c"] ["1", "2", "3"] 2).1
      ++ (split_columns_evenly ["a", "b", "c"] ["1", "2", "3"] 2).2.1
      ++ (split_columns_evenly ["a", "b", "c"] ["1", "2", "3"] 2).2.2
      = ["a", "b", "c"].zip ["1", "2", "3"] :=
  ⟨by decide, (split_columns_covers_all ["a", "b", "c"] ["1", "2", "3"] 2 (by decide)).2.2.2.1⟩

/-- C9: for every page geometry with positive cell-plus-gutter height and
every requested row count, the effective row count equals the spec's formula
min(requested, max(1, floor((usable + gutter) / (cell + gutter)))), and the
requested count is only ever clamped downward, never increased. -/
theorem actual_rows_spec (rows : ℤ) (usable_h gutter card_h : ℚ)
    (hpos : 0 < card_h + gutter) :
    actual_rows rows usable_h gutter card_h = effective_rows_spec rows usable_h gutter card_h
    ∧ actual_rows rows usable_h gutter card_h ≤ rows := by
  exact ⟨rfl, min_le_left _ _⟩

/-- Witness for `actual_rows_spec`: usable height 500, gutter 16, card height
140, requested rows 4 — three rows fit, so the request is clamped to 3. -/
theorem actual_rows_spec_witness :
    (0 : ℚ) < 140 + 16
    ∧ actual_rows 4 500 16 140 = effective_rows_spec 4 500 16 140
    ∧ actual_rows 4 500 16 140 ≤ 4 :=
  ⟨by norm_num, (actual_rows_spec 4 500 16 140 (by norm_num)).1,
    (actual_rows_spec 4 500 16 140 (by norm_num)).2⟩

lemma range'_one_concat (s n : ℕ) :
    List.range' s (n + 1) = List.range' s n ++ [s + n] := by
  simpa using @List.range'_concat 1 s n

lemma packStep_break (P total idx c p : Nat) (hs br : List Nat)
    (h : (c + 1) % P = 0) (hidx : idx ≠ total - 1) :
    packStep false P total idx ⟨c, p, hs, br⟩
      = ⟨c + 1, p + 1, hs ++ [p + 1], br ++ [c + 1]⟩ := by
  simp [packStep, h, hidx]

lemma packStep_no_break (P total idx c p : Nat) (hs br : List Nat)
    (h : ¬ (c + 1) % P = 0) :
    packStep false P total idx ⟨c, p, hs, br⟩ = ⟨c + 1, p, hs, br⟩ := by
  simp [packStep, h]

lemma packStep_last (P total c p : Nat) (hs br : List Nat) :
    packStep false P total (total - 1) ⟨c, p, hs, br⟩ = ⟨c + 1, p, hs, br⟩ := by
  simp [packStep]

lemma packStep_preview (P total idx c p : Nat) (hs br : List Nat) :
    packStep true P total idx ⟨c, p, hs, br⟩ = ⟨c + 1, p, hs, br⟩ := by
  simp [packStep]

lemma packRun_prefix (P R : Nat) (hP : 1 ≤ P) :
    ∀ k, k ≤ R - 1 →
      (List.range k).foldl (fun st idx => packStep false P R idx st) packInit
        = ⟨k, k / P + 1, List.range' 1 (k / P + 1),
            (List.range' 1 k).filter (fun n => n % P == 0)⟩ := by
  intro k
  induction k with
  | zero => intro _; simp [packInit, Nat.zero_div]
  | succ k ih =>
      intro hk
      rw [List.range_succ, List.foldl_append, ih (Nat.le_of_succ_le hk)]
      have hkR : k ≠ R - 1 := by omega
      simp only [List.foldl_cons, List.foldl_nil]
      by_cases h : (k + 1) % P = 0
      · rw [packStep_break P R k _ _ _ _ h hkR, PackState.mk.injEq]
        have hdiv : (k + 1) / P = k / P + 1 := by
          rw [Nat.succ_div, if_pos (Nat.dvd_of_mod_eq_zero h)]
        refine ⟨rfl, by rw [hdiv], ?_, ?_⟩
        · rw [hdiv]
          conv_rhs => rw [range'_one_concat]
          congr 2
          omega
        · conv_rhs => rw [range'_one_concat]
          rw [List.filter_append]
          congr 1
          simp [List.filter, Nat.add_comm 1 k, h]
      · rw [packStep_no_break P R k _ _ _ _ h, PackState.mk.injEq]
        have hdiv : (k + 1) / P = k / P := by
          rw [Nat.succ_div, if_neg (fun hd => h (Nat.mod_eq_zero_of_dvd hd)), Nat.add_zero]
        refine ⟨rfl, by rw [hdiv], by rw [hdiv], ?_⟩
        conv_rhs => rw [range'_one_concat]
        rw [List.filter_append]
        have hb : ((1 + k) % P == 0) = false := by
          rw [Nat.add_comm 1 k]
          exact beq_eq_false_iff_ne.mpr h
        have : (List.filter (fun n => n % P == 0) [1 + k]) = [] := by
          simp [List.filter, hb]
        rw [this, List.append_nil]

/-- C2: for R ≥ 1 records and P ≥ 1 cells per page, the non-preview run
emits exactly ⌈R/P⌉ pages, calls the header callback exactly ⌈R/P⌉ times
with the 1-based page indices 1, 2, ..., ⌈R/P⌉ in order, and fires a
page-boundary transition exactly at the card counts that are positive
multiples of P other than R itself — so no trailing empty page is emitted. -/
theorem paginate_exactness (R P : Nat) (hR : 1 ≤ R) (hP : 1 ≤ P) :
    (packRun false P R).pageIdx = (R + P - 1) / P
    ∧ (packRun false P R).headerCalls = List.range' 1 ((R + P - 1) / P)
    ∧ (packRun false P R).breaks
        = (List.range' 1 R).filter (fun n => n % P == 0 && n != R) := by
  have hceil : (R - 1) / P + 1 = (R + P - 1) / P := by
    have h1 : R + P - 1 = (R - 1) + P := by omega
    rw [h1, Nat.add_div_right _ hP]
  have hsplit : List.range R = List.range (R - 1) ++ [R - 1] := by
    conv_lhs => rw [show R = (R - 1) + 1 by omega]
    rw [List.range_succ]
  have hfin : packRun false P R
      = ⟨R, (R - 1) / P + 1, List.range' 1 ((R - 1) / P + 1),
          (List.range' 1 (R - 1)).filter (fun n => n % P == 0)⟩ := by
    rw [packRun, hsplit, List.foldl_append,
      packRun_prefix P R hP (R - 1) le_rfl, List.foldl_cons, List.foldl_nil,
      packStep_last, PackState.mk.injEq]
    refine ⟨by omega, rfl, rfl, rfl⟩
  have hr : List.range' 1 R = List.range' 1 (R - 1) ++ [R] := by
    conv_lhs => rw [show R = (R - 1) + 1 by omega]
    rw [range'_one_concat]
    congr 2
    omega
  have hbreaks : (List.range' 1 (R - 1)).filter (fun n => n % P == 0)
      = (List.range' 1 R).filter (fun n => n % P == 0 && n != R) := by
    rw [hr, List.filter_append]
    have hl : (List.range' 1 (R - 1)).filter (fun n => n % P == 0 && n != R)
        = (List.range' 1 (R - 1)).filter (fun n => n % P == 0) := by
      refine List.filter_congr ?_
      intro a ha
      have haR : a < R := by
        rcases List.mem_range'.mp ha with ⟨i, hi, rfl⟩
        omega
      have hne : a ≠ R := Nat.ne_of_lt haR
      simp [hne]
    rw [hl]
    have : (List.filter (fun n => n % P == 0 && n != R) [R]) = [] := by
      simp [List.filter]
    rw [this, List.append_nil]
  rw [hfin, ← hceil, hbreaks]
  exact ⟨rfl, rfl, rfl⟩

/-- Witness for `paginate_exactness` at the spec example R = 13, P = 6:
3 pages, headers [1, 2, 3], page breaks after cards 6 and 12. -/
theorem paginate_exactness_witness :
    (packRun false 6 13).pageIdx = (13 + 6 - 1) / 6
    ∧ (packRun false 6 13).headerCalls = List.range' 1 ((13 + 6 - 1) / 6)
    ∧ (packRun false 6 13).breaks
        = (List.range' 1 13).filter (fun n => n % 6 == 0 && n != 13) :=
  paginate_exactness 13 6 (by decide) (by decide)

lemma packRun_preview_aux (P total : Nat) : ∀ R,
    (List.range R).foldl (fun st idx => packStep true P total idx st) packInit
      = ⟨R, 1, [1], []⟩ := by
  intro R
  induction R with
  | zero => rfl
  | succ R ih =>
      rw [List.range_succ, List.foldl_append, ih, List.foldl_cons, List.foldl_nil,
        packStep_preview]

lemma packRun_preview (P R : Nat) : packRun true P R = ⟨R, 1, [1], []⟩ :=
  packRun_preview_aux P R R

/-- C5 counterexample: in preview mode with `max_preview_cards = None`, no
truncation happens at all — five records on a 2-cells-per-page geometry
render all five cards, more than cellsPerPage, contradicting "truncates the
record stream to at most cellsPerPage records" (still a single page). -/
theorem preview_no_cellsPerPage_truncation :
    total_cards 5 true none = 5
    ∧ ¬ (total_cards 5 true none ≤ 2)
    ∧ (packRun true 2 (total_cards 5 true none)).pageIdx = 1 := by
  refine ⟨rfl, by decide, by decide⟩

/-- C5 amended: in preview mode, `generate_pdf` truncates the record stream
to at most `max_preview_cards` records whenever that argument is supplied
and nonzero (the application passes cellsPerPage for it; with `None` no
truncation occurs), and it never performs a page-boundary transition,
producing a single page — header drawn once for page 1 — regardless of the
total record count. -/
theorem preview_truncation_and_single_page (R P m : Nat) (hm : 1 ≤ m) :
    total_cards R true (some m) = min R m
    ∧ total_cards R true (some m) ≤ m
    ∧ (packRun true P R).pageIdx = 1
    ∧ (packRun true P R).headerCalls = [1]
    ∧ (packRun true P R).breaks = [] := by
  have ht : total_cards R true (some m) = min R m := by
    simp [total_cards, Nat.one_le_iff_ne_zero.mp hm]
  refine ⟨ht, by rw [ht]; exact Nat.min_le_right R m, ?_, ?_, ?_⟩ <;>
    rw [packRun_preview]

/-- Witness for `preview_truncation_and_single_page` at R = 20, P = 6,
max_preview_cards = 6. -/
theorem preview_truncation_witness :
    (1 ≤ 6)
    ∧ (total_cards 20 true (some 6) = min 20 6
        ∧ total_cards 20 true (some 6) ≤ 6
        ∧ (packRun true 6 20).pageIdx = 1
        ∧ (packRun true 6 20).headerCalls = [1]
        ∧ (packRun true 6 20).breaks = []) :=
  ⟨by decide, preview_truncation_and_single_page 20 6 6 (by decide)⟩

lemma fitLoop_eq_pickFirstFit (W : List Char → ℚ) (budget : ℚ) (ds sc : List Char) :
    ∀ nu cu, fitLoop W budget ds sc nu cu
      = pickFirstFit W budget (candList ds sc nu cu)
          (assemble ds sc (floorFillers nu cu).1 (floorFillers nu cu).2 true) := by
  suffices H : ∀ n nu cu, nu.length + cu.length ≤ n →
      fitLoop W budget ds sc nu cu
        = pickFirstFit W budget (candList ds sc nu cu)
            (assemble ds sc (floorFillers nu cu).1 (floorFillers nu cu).2 true) by
    intro nu cu
    exact H (nu.length + cu.length) nu cu le_rfl
  intro n
  induction n with
  | zero =>
      intro nu cu hle
      have hnu : ¬ 2 < nu.length := by omega
      have hcu : ¬ 1 < cu.length := by omega
      rw [fitLoop.eq_def, candList.eq_def, floorFillers.eq_def,
        if_neg hnu, if_neg hnu, if_neg hnu, if_neg hcu, if_neg hcu, if_neg hcu]
      by_cases hW : W (assemble ds sc nu cu false) > budget
      · rw [if_pos hW, pickFirstFit, if_neg (not_le.mpr hW), pickFirstFit]
      · rw [if_neg hW, pickFirstFit, if_pos (not_lt.mp hW)]
  | succ n ih =>
      intro nu cu hle
      rw [fitLoop.eq_def, candList.eq_def, floorFillers.eq_def]
      by_cases hW : W (assemble ds sc nu cu false) > budget
      · rw [if_pos hW]
        by_cases hnu : 2 < nu.length
        · rw [if_pos hnu, if_pos hnu, if_pos hnu, pickFirstFit,
            if_neg (not_le.mpr hW)]
          exact ih nu.dropLast cu (by simp [List.length_dropLast]; omega)
        · rw [if_neg hnu, if_neg hnu, if_neg hnu]
          by_cases hcu : 1 < cu.length
          · rw [if_pos hcu, if_pos hcu, if_pos hcu, pickFirstFit,
              if_neg (not_le.mpr hW)]
            exact ih nu cu.dropLast (by simp [List.length_dropLast]; omega)
          · rw [if_neg hcu, if_neg hcu, if_neg hcu, pickFirstFit,
              if_neg (not_le.mpr hW), pickFirstFit]
      · rw [if_neg hW, pickFirstFit, if_pos (not_lt.mp hW)]

lemma dropLast_rep (k : Nat) (c : Char) :
    (List.replicate (k + 1) c).dropLast = List.replicate k c := by
  rw [List.replicate_succ', List.dropLast_concat]

lemma underscores8 : "________".toList = List.replicate 8 '_' := by decide

lemma underscores3 : "___".toList = List.replicate 3 '_' := by decide

lemma dl8 : (List.replicate 8 '_').dropLast = List.replicate 7 '_' := dropLast_rep 7 '_'

lemma dl7 : (List.replicate 7 '_').dropLast = List.replicate 6 '_' := dropLast_rep 6 '_'

lemma dl6 : (List.replicate 6 '_').dropLast = List.replicate 5 '_' := dropLast_rep 5 '_'

lemma dl5 : (List.replicate 5 '_').dropLast = List.replicate 4 '_' := dropLast_rep 4 '_'

lemma dl4 : (List.replicate 4 '_').dropLast = List.replicate 3 '_' := dropLast_rep 3 '_'

lemma dl3 : (List.replicate 3 '_').dropLast = List.replicate 2 '_' := dropLast_rep 2 '_'

lemma dl2 : (List.replicate 2 '_').dropLast = List.replicate 1 '_' := dropLast_rep 1 '_'

lemma candList_underscores (ds sc : List Char) :
    candList ds sc (List.replicate 8 '_') (List.replicate 3 '_')
      = [assemble ds sc (List.replicate 8 '_') (List.replicate 3 '_') false,
         assemble ds sc (List.replicate 7 '_') (List.replicate 3 '_') false,
         assemble ds sc (List.replicate 6 '_') (List.replicate 3 '_') false,
         assemble ds sc (List.replicate 5 '_') (List.replicate 3 '_') false,
         assemble ds sc (List.replicate 4 '_') (List.replicate 3 '_') false,
         assemble ds sc (List.replicate 3 '_') (List.replicate 3 '_') false,
         assemble ds sc (List.replicate 2 '_') (List.replicate 3 '_') false,
         assemble ds sc (List.replicate 2 '_') (List.replicate 2 '_') false,
         assemble ds sc (List.replicate 2 '_') (List.replicate 1 '_') false] := by
  rw [candList.eq_def, if_pos (by simp), dl8,
    candList.eq_def, if_pos (by simp), dl7,
    candList.eq_def, if_pos (by simp), dl6,
    candList.eq_def, if_pos (by simp), dl5,
    candList.eq_def, if_pos (by simp), dl4,
    candList.eq_def, if_pos (by simp), dl3,
    candList.eq_def, if_neg (by simp), if_pos (by simp), dl3,
    candList.eq_def, if_neg (by simp), if_pos (by simp), dl2,
    candList.eq_def, if_neg (by simp), if_neg (by simp)]

lemma floorFillers_underscores :
    floorFillers (List.replicate 8 '_') (List.replicate 3 '_')
      = (List.replicate 2 '_', List.replicate 1 '_') := by
  rw [floorFillers.eq_def, if_pos (by simp), dl8,
    floorFillers.eq_def, if_pos (by simp), dl7,
    floorFillers.eq_def, if_pos (by simp), dl6,
    floorFillers.eq_def, if_pos (by simp), dl5,
    floorFillers.eq_def, if_pos (by simp), dl4,
    floorFillers.eq_def, if_pos (by simp), dl3,
    floorFillers.eq_def, if_neg (by simp), if_pos (by simp), dl3,
    floorFillers.eq_def, if_neg (by simp), if_pos (by simp), dl2,
    floorFillers.eq_def, if_neg (by simp), if_neg (by simp)]

/-- C6: the header shrink loop follows the strict order of the spec: the
returned header is the first of the inspection sequence — Name underline
shrunk one step at a time from 8 down to its minimum 2, only then the Class
underline from 3 down to its minimum 1 — that fits within the budget
(max_width minus the 1 mm safety margin); when none fits, the result is the
floor assembly with the space before `Class` removed once, returned even
though it may still exceed the budget (no error, no further shrinking). -/
theorem header_shrink_strict_order (pdfWidth : String → List Char → ℚ → ℚ)
    (ds sc : List Char) (maxWidth fontSize : ℚ) (enF zhF : String) :
    build_header_one_line pdfWidth ds sc maxWidth fontSize enF zhF
      = pickFirstFit (string_width_mixed pdfWidth enF zhF fontSize) (maxWidth - 1 * mm)
          [assemble ds sc (List.replicate 8 '_') (List.replicate 3 '_') false,
           assemble ds sc (List.replicate 7 '_') (List.replicate 3 '_') false,
           assemble ds sc (List.replicate 6 '_') (List.replicate 3 '_') false,
           assemble ds sc (List.replicate 5 '_') (List.replicate 3 '_') false,
           assemble ds sc (List.replicate 4 '_') (List.replicate 3 '_') false,
           assemble ds sc (List.replicate 3 '_') (List.replicate 3 '_') false,
           assemble ds sc (List.replicate 2 '_') (List.replicate 3 '_') false,
           assemble ds sc (List.replicate 2 '_') (List.replicate 2 '_') false,
           assemble ds sc (List.replicate 2 '_') (List.replicate 1 '_') false]
          (assemble ds sc (List.replicate 2 '_') (List.replicate 1 '_') true) := by
  rw [build_header_one_line, underscores8, underscores3,
    fitLoop_eq_pickFirstFit, candList_underscores, floorFillers_underscores]

/-- C4 amended: whenever `max_width` exceeds the measured width of the fully
unshrunk assembled header by at least the 1 mm safety margin, the function
returns exactly the unshrunk assembly (fillers at lengths 8 and 3, with the
space before `Class` present). -/
theorem header_unshrunk_when_fits (pdfWidth : String → List Char → ℚ → ℚ)
    (ds sc : List Char) (maxWidth fontSize : ℚ) (enF zhF : String)
    (h : string_width_mixed pdfWidth enF zhF fontSize
          (assemble ds sc "________".toList "___".toList false) ≤ maxWidth - 1 * mm) :
    build_header_one_line pdfWidth ds sc maxWidth fontSize enF zhF
      = assemble ds sc "________".toList "___".toList false := by
  rw [build_header_one_line, fitLoop.eq_def, if_neg (not_lt.mpr h)]

lemma string_width_charCount (enF zhF : String) (size : ℚ) (s : List Char) :
    string_width_mixed charCountWidth enF zhF size s = s.length := by
  show ((split_runs s).map (fun tok => ((tok.length : ℚ)))).sum = (s.length : ℚ)
  conv_rhs => rw [← split_runs_flatten s]
  rw [List.length_flatten, Nat.cast_list_sum, List.map_map]
  rfl

lemma unshrunk_len :
    (assemble "1111".toList "ab".toList "________".toList "___".toList false).length
      = 29 := by decide

/-- Witness for `header_unshrunk_when_fits`: with 1-point-per-character
metrics, date "1111", scope "ab" and max_width 40, the unshrunk header
(width 29) fits within 40 − 1 mm and is returned unchanged. -/
theorem header_unshrunk_witness :
    string_width_mixed charCountWidth "Times-Bold" "SimSun" 11
        (assemble "1111".toList "ab".toList "________".toList "___".toList false)
      ≤ 40 - 1 * mm
    ∧ build_header_one_line charCountWidth "1111".toList "ab".toList 40 11
        "Times-Bold" "SimSun"
      = assemble "1111".toList "ab".toList "________".toList "___".toList false := by
  have hfits : string_width_mixed charCountWidth "Times-Bold" "SimSun" 11
      (assemble "1111".toList "ab".toList "________".toList "___".toList false)
      ≤ 40 - 1 * mm := by
    rw [string_width_charCount, unshrunk_len]
    norm_num [mm]
  exact ⟨hfits, header_unshrunk_when_fits charCountWidth "1111".toList "ab".toList
    40 11 "Times-Bold" "SimSun" hfits⟩

lemma cand_len8 :
    (assemble "1111".toList "ab".toList (List.replicate 8 '_')
      (List.replicate 3 '_') false).length = 29 := by decide

lemma cand_len7 :
    (assemble "1111".toList "ab".toList (List.replicate 7 '_')
      (List.replicate 3 '_') false).length = 28 := by decide

lemma cand_len6 :
    (assemble "1111".toList "ab".toList (List.replicate 6 '_')
      (List.replicate 3 '_') false).length = 27 := by decide

lemma cand_len5 :
    (assemble "1111".toList "ab".toList (List.replicate 5 '_')
      (List.replicate 3 '_') false).length = 26 := by decide

/-- C4 counterexample: with 1-point-per-character metrics the unshrunk header
for date "1111", scope "ab" measures exactly 29, yet at `max_width = 29` the
function does not return the unshrunk assembly: the 1 mm safety margin makes
the loop shrink the Name underline three steps, to 5 underscores. -/
theorem header_shrinks_at_exact_width :
    string_width_mixed charCountWidth "Times-Bold" "SimSun" 11
        (assemble "1111".toList "ab".toList "________".toList "___".toList false) = 29
    ∧ build_header_one_line charCountWidth "1111".toList "ab".toList 29 11
        "Times-Bold" "SimSun"
      = assemble "1111".toList "ab".toList "_____".toList "___".toList false
    ∧ assemble "1111".toList "ab".toList "_____".toList "___".toList false
      ≠ assemble "1111".toList "ab".toList "________".toList "___".toList false := by
  refine ⟨by rw [string_width_charCount, unshrunk_len]; norm_num, ?_, by decide⟩
  have u5 : "_____".toList = List.replicate 5 '_' := by decide
  rw [build_header_one_line, underscores8, underscores3, u5, fitLoop_eq_pickFirstFit,
    candList_underscores, floorFillers_underscores]
  rw [pickFirstFit, string_width_charCount, cand_len8,
    if_neg (by norm_num [mm])]
  rw [pickFirstFit, string_width_charCount, cand_len7,
    if_neg (by norm_num [mm])]
  rw [pickFirstFit, string_width_charCount, cand_len6,
    if_neg (by norm_num [mm])]
  rw [pickFirstFit, string_width_charCount, cand_len5,
    if_pos (by norm_num [mm])]

lemma fitLoopFuel_sufficient (W : List Char → ℚ) (budget : ℚ) (ds sc : List Char) :
    ∀ fuel nu cu, (nu.length - 2) + (cu.length - 1) < fuel →
      fitLoopFuel W budget ds sc fuel nu cu = some (fitLoop W budget ds sc nu cu) := by
  intro fuel
  induction fuel with
  | zero => intro nu cu h; exact absurd h (Nat.not_lt_zero _)
  | succ fuel ih =>
      intro nu cu h
      rw [fitLoop.eq_def]
      simp only [fitLoopFuel]
      by_cases hW : W (assemble ds sc nu cu false) > budget
      · rw [if_pos hW, if_pos hW]
        by_cases hnu : 2 < nu.length
        · rw [if_pos hnu, if_pos hnu]
          exact ih nu.dropLast cu (by simp only [List.length_dropLast]; omega)
        · rw [if_neg hnu, if_neg hnu]
          by_cases hcu : 1 < cu.length
          · rw [if_pos hcu, if_pos hcu]
            exact ih nu cu.dropLast (by simp only [List.length_dropLast]; omega)
          · rw [if_neg hcu, if_neg hcu]
      · rw [if_neg hW, if_neg hW]

/-- C7: for every template and every max_width > 0, the shrink loop
terminates and returns a string, within a number of loop iterations bounded
by the sum of the initial lengths of the two filler runs (8 + 3 = 11): the
fuel-indexed loop given exactly that much fuel already returns the result of
the unbounded loop. -/
theorem header_fit_terminates (pdfWidth : String → List Char → ℚ → ℚ)
    (ds sc : List Char) (maxWidth fontSize : ℚ) (enF zhF : String)
    (hw : 0 < maxWidth) :
    fitLoopFuel (string_width_mixed pdfWidth enF zhF fontSize) (maxWidth - 1 * mm)
        ds sc ("________".toList.length + "___".toList.length)
        "________".toList "___".toList
      = some (build_header_one_line pdfWidth ds sc maxWidth fontSize enF zhF) := by
  rw [build_header_one_line]
  exact fitLoopFuel_sufficient _ _ ds sc _ _ _ (by decide)

/-- Witness for `header_fit_terminates` at a concrete metrics environment,
template and positive max_width. -/
theorem header_fit_terminates_witness :
    (0 : ℚ) < 40
    ∧ fitLoopFuel (string_width_mixed charCountWidth "Times-Bold" "SimSun" 11)
        (40 - 1 * mm) "1111".toList "ab".toList
        ("________".toList.length + "___".toList.length)
        "________".toList "___".toList
      = some (build_header_one_line charCountWidth "1111".toList "ab".toList 40 11
          "Times-Bold" "SimSun") :=
  ⟨by norm_num, header_fit_terminates charCountWidth "1111".toList "ab".toList 40 11
    "Times-Bold" "SimSun" (by norm_num)⟩

lemma length_flatten_grid {α : Type} (rows cols : Nat) (f : Nat → Nat → α) :
    (((List.range rows).map (fun r => (List.range cols).map (f r))).flatten).length
      = cols * rows := by
  rw [List.length_flatten, List.map_map]
  have hconst : (List.length ∘ fun r => (List.range cols).map (f r))
      = fun _ => cols := by
    funext r
    simp
  rw [hconst, List.map_const', List.length_range, List.sum_replicate, smul_eq_mul,
    Nat.mul_comm]

/-- C10 counterexample: with an empty item list `make_chongmo_pdf` raises
`ValueError` ("Need at least 1 item.") and emits no page at all — so it does
not emit one page "regardless of how many items are supplied". -/
theorem chongmo_empty_items_raises :
    make_chongmo_pdf charCountWidth "SimSun" "1111".toList "ab".toList [] 2 3 11 3
      = Except.error "Need at least 1 item."
    ∧ ∀ out : ChongmoOut,
        make_chongmo_pdf charCountWidth "SimSun" "1111".toList "ab".toList [] 2 3 11 3
          ≠ Except.ok out := by
  refine ⟨rfl, ?_⟩
  intro out h
  rw [show make_chongmo_pdf charCountWidth "SimSun" "1111".toList "ab".toList [] 2 3 11 3
      = Except.error "Need at least 1 item." from rfl] at h
  exact Except.noConfusion h

/-- C10 amended: for every *nonempty* item list and nonzero grid dimensions
(empty items raise ValueError, zero cols or rows raise ZeroDivisionError),
`make_chongmo_pdf` emits exactly one page, draws exactly cols × rows cells,
and every cell receives the identical content — the same header paragraph
followed by the same numbered lines for the *whole* item list; items are
never distributed across cells or pages. -/
theorem chongmo_single_page_identical_cells
    (pdfWidth : String → List Char → ℚ → ℚ) (zhFont : String)
    (ds sc : List Char) (items : List (List Char)) (cols rows : Nat)
    (fontSize padding : ℚ) (h : items ≠ []) (hcols : cols ≠ 0) (hrows : rows ≠ 0) :
    ∃ out, make_chongmo_pdf pdfWidth zhFont ds sc items cols rows fontSize padding
        = Except.ok out
      ∧ out.pages = 1
      ∧ out.cells.length = cols * rows
      ∧ ∃ hdr, ∀ cell ∈ out.cells,
          cell.2.2 = Flow.header hdr :: numberItems zhFont 1 items := by
  have hne : ¬ items.length = 0 := by simpa using h
  simp only [make_chongmo_pdf]
  rw [if_neg hne, if_neg hcols, if_neg hrows]
  refine ⟨_, rfl, rfl, ?_, ?_⟩
  · exact length_flatten_grid rows cols _
  · refine ⟨wrap_mixed EN_FONT_BOLD zhFont (build_header_one_line pdfWidth ds sc
      ((PAGE_W - 2 * (8 * mm)) / (cols : ℚ) - 2 * (padding * mm)) fontSize
      EN_FONT_BOLD zhFont), ?_⟩
    intro cell hcell
    simp only [List.mem_flatten, List.mem_map] at hcell
    obtain ⟨l, ⟨r, hr, rfl⟩, hcl⟩ := hcell
    obtain ⟨col, hcol, rfl⟩ := List.mem_map.mp hcl
    rfl

/-- Witness for `chongmo_single_page_identical_cells` at one item and the
default 2 × 3 grid. -/
theorem chongmo_witness :
    ((["ab".toList] : List (List Char)) ≠ [] ∧ (2 : Nat) ≠ 0 ∧ (3 : Nat) ≠ 0)
    ∧ ∃ out, make_chongmo_pdf charCountWidth "SimSun" "1111".toList "ab".toList
        ["ab".toList] 2 3 11 3 = Except.ok out
      ∧ out.pages = 1
      ∧ out.cells.length = 2 * 3
      ∧ ∃ hdr, ∀ cell ∈ out.cells,
          cell.2.2 = Flow.header hdr :: numberItems "SimSun" 1 ["ab".toList] :=
  ⟨⟨by decide, by decide, by decide⟩, chongmo_single_page_identical_cells charCountWidth
    "SimSun" "1111".toList "ab".toList ["ab".toList] 2 3 11 3
    (by decide) (by decide) (by decide)⟩


end EnglishGen
